import Mathlib

set_option maxHeartbeats 1000000

/-!
Shallow embedding of the caching / rate-limiting core of the service:
the `CacheService` wrapper over a Redis-style key-value store, the
`CacheInvalidator`, and the fixed-window `RateLimitService`.

The store holds raw string payloads.  Numbers are printed and parsed in
decimal, as Redis `INCR` and `JSON.stringify`/`JSON.parse` do, so the
first section builds an executable decimal printer and parser and proves
they are mutually inverse.
-/

/-- Decimal digit to character, as produced by JS string conversion. -/
def digitChar (d : Nat) : Char :=
  if d = 0 then '0' else if d = 1 then '1' else if d = 2 then '2'
  else if d = 3 then '3' else if d = 4 then '4' else if d = 5 then '5'
  else if d = 6 then '6' else if d = 7 then '7' else if d = 8 then '8'
  else '9'

/-- Numeric value of a digit character. -/
def charVal (c : Char) : Nat := c.toNat - 48

/-- Character is an ASCII decimal digit. -/
def isDigitChar (c : Char) : Bool := 48 ≤ c.toNat && c.toNat ≤ 57

/-- Big-endian digit list of `n`; `fuel` bounds the recursion so the
definition is structural and kernel-reducible. -/
def toDigitsAux : Nat → Nat → List Char
  | 0, _ => []
  | fuel + 1, n => if n = 0 then [] else toDigitsAux fuel (n / 10) ++ [digitChar (n % 10)]

/-- Decimal rendering of a natural number (JS `String(n)` for n ≥ 0). -/
def printNat (n : Nat) : String :=
  if n = 0 then "0" else String.mk (toDigitsAux (n + 1) n)

/-- Decimal rendering of an integer (JS `String(i)` for integral i). -/
def printInt (i : Int) : String :=
  if i < 0 then "-" ++ printNat i.natAbs else printNat i.natAbs

/-- Fold decimal digits onto an accumulator; `none` on a non-digit. -/
def parseNatAux : List Char → Nat → Option Nat
  | [], acc => some acc
  | c :: cs, acc => if isDigitChar c then parseNatAux cs (acc * 10 + charVal c) else none

/-- Parse a non-empty all-digit string as a natural number. -/
def parseNat (cs : List Char) : Option Nat :=
  match cs with
  | [] => none
  | _ :: _ => parseNatAux cs 0

/-- Parse an optionally minus-signed decimal integer (the grammar Redis
`INCR` and JSON accept for the integers this system stores). -/
def parseInt (cs : List Char) : Option Int :=
  match cs with
  | [] => none
  | c :: rest =>
    if c = '-' then
      match parseNat rest with
      | none => none
      | some n => some (-(n : Int))
    else
      match parseNat cs with
      | none => none
      | some n => some ((n : Int))

theorem parseNatAux_append (l1 l2 : List Char) (acc : Nat) :
    parseNatAux (l1 ++ l2) acc = (parseNatAux l1 acc).bind (fun m => parseNatAux l2 m) := by
  induction l1 generalizing acc with
  | nil => simp [parseNatAux]
  | cons c cs ih =>
    by_cases h : isDigitChar c
    · simp [parseNatAux, h, ih]
    · simp [parseNatAux, h]

theorem isDigitChar_digitChar (d : Nat) (h : d < 10) : isDigitChar (digitChar d) = true := by
  interval_cases d <;> decide

theorem charVal_digitChar (d : Nat) (h : d < 10) : charVal (digitChar d) = d := by
  interval_cases d <;> decide

theorem parseNatAux_singleton_digit (d m : Nat) (h : d < 10) :
    parseNatAux [digitChar d] m = some (m * 10 + d) := by
  simp [parseNatAux, isDigitChar_digitChar d h, charVal_digitChar d h]

theorem parseNatAux_toDigitsAux (fuel : Nat) :
    ∀ n acc, n ≤ fuel →
      parseNatAux (toDigitsAux fuel n) acc = some (acc * 10 ^ (toDigitsAux fuel n).length + n) := by
  induction fuel with
  | zero =>
    intro n acc hn
    interval_cases n
    simp [toDigitsAux, parseNatAux]
  | succ fuel ih =>
    intro n acc hn
    by_cases h0 : n = 0
    · subst h0; simp [toDigitsAux, parseNatAux]
    · have hdiv : n / 10 ≤ fuel := by
        have : n / 10 < n := Nat.div_lt_self (Nat.pos_of_ne_zero h0) (by omega)
        omega
      have hmod : n % 10 < 10 := Nat.mod_lt _ (by omega)
      rw [toDigitsAux]
      simp only [if_neg h0]
      rw [parseNatAux_append, ih (n / 10) acc hdiv]
      simp only [Option.some_bind]
      rw [parseNatAux_singleton_digit _ _ hmod]
      rw [List.length_append, List.length_singleton]
      congr 1
      have hdm : 10 * (n / 10) + n % 10 = n := Nat.div_add_mod n 10
      generalize (toDigitsAux fuel (n / 10)).length = L
      rw [pow_succ, ← Nat.mul_assoc]
      generalize acc * 10 ^ L = A
      omega

theorem parseNat_printNat (n : Nat) : parseNat (printNat n).data = some n := by
  by_cases h0 : n = 0
  · subst h0; decide
  · have hne : toDigitsAux (n + 1) n ≠ [] := by
      rw [toDigitsAux]
      simp [h0]
    rw [printNat, if_neg h0]
    show parseNat (toDigitsAux (n + 1) n) = some n
    rcases hd : toDigitsAux (n + 1) n with _ | ⟨c, cs⟩
    · exact absurd hd hne
    · rw [parseNat]
      rw [← hd]
      rw [parseNatAux_toDigitsAux (n + 1) n 0 (by omega)]
      simp

theorem printNat_injective {a b : Nat} (h : printNat a = printNat b) : a = b := by
  have ha := parseNat_printNat a
  have hb := parseNat_printNat b
  rw [h, hb] at ha
  exact (Option.some.injEq _ _).mp ha.symm

theorem printNat_data_ne_nil (n : Nat) : (printNat n).data ≠ [] := by
  intro h
  have := parseNat_printNat n
  rw [h] at this
  simp [parseNat] at this

theorem parseNat_isDigit_head {c : Char} {cs : List Char} {n : Nat}
    (h : parseNat (c :: cs) = some n) : isDigitChar c = true := by
  rw [parseNat] at h
  by_contra hc
  simp only [Bool.not_eq_true] at hc
  rw [parseNatAux, hc] at h
  simp at h

theorem parseInt_minus_some {cs : List Char} {n : Nat} (h : parseNat cs = some n) :
    parseInt ('-' :: cs) = some (-(n : Int)) := by
  rw [parseInt.eq_def]
  simp [h]

theorem parseInt_not_minus_some {c : Char} {cs : List Char} {n : Nat}
    (hc : ¬ (c = '-')) (h : parseNat (c :: cs) = some n) :
    parseInt (c :: cs) = some ((n : Int)) := by
  rw [parseInt.eq_def]
  simp [hc, h]

theorem parseInt_some_head {c : Char} {cs : List Char} {i : Int}
    (h : parseInt (c :: cs) = some i) : isDigitChar c = true ∨ c = '-' := by
  by_cases hc : c = '-'
  · exact Or.inr hc
  · left
    rw [parseInt.eq_def] at h
    simp only [hc, if_false, if_neg hc] at h
    rcases hp : parseNat (c :: cs) with _ | m
    · rw [hp] at h; simp at h
    · exact parseNat_isDigit_head hp

theorem parseInt_printInt (i : Int) : parseInt (printInt i).data = some i := by
  by_cases hneg : i < 0
  · rw [printInt, if_pos hneg]
    rw [String.data_append]
    have hm : ("-" : String).data = ['-'] := rfl
    rw [hm, List.singleton_append]
    rw [parseInt_minus_some (parseNat_printNat _)]
    congr 1
    omega
  · rw [printInt, if_neg hneg]
    rcases hd : (printNat i.natAbs).data with _ | ⟨c, cs⟩
    · exact absurd hd (printNat_data_ne_nil _)
    · have hp : parseNat (c :: cs) = some i.natAbs := by
        rw [← hd]; exact parseNat_printNat _
      have hdig : isDigitChar c = true := parseNat_isDigit_head hp
      have hcm : ¬ (c = '-') := by
        intro hc
        rw [hc] at hdig
        exact absurd hdig (by decide)
      rw [parseInt_not_minus_some hcm hp]
      congr 1
      omega

theorem printInt_ne_empty (i : Int) : printInt i ≠ "" := by
  intro h
  by_cases hneg : i < 0
  · rw [printInt, if_pos hneg] at h
    have h2 := congrArg String.data h
    rw [String.data_append] at h2
    have hm : ("-" : String).data = ['-'] := rfl
    have he : ("" : String).data = [] := rfl
    rw [hm, he] at h2
    simp at h2
  · rw [printInt, if_neg hneg] at h
    have h2 := congrArg String.data h
    have he : ("" : String).data = [] := rfl
    rw [he] at h2
    exact printNat_data_ne_nil i.natAbs h2

/-!
JSON layer.  `CacheService.set` stores `JSON.stringify(value)` and
`CacheService.get` applies `JSON.parse` to the raw payload.  `Json` is
the fragment of JS values the cached paths exchange; `serialize` and
`deserialize` are the executable stringify/parse pair on that fragment.
-/

/-- Modelled fragment of JS values stored through the cache. -/
inductive Json where
  | null : Json
  | bool (b : Bool) : Json
  | num (n : Int) : Json
  | str (s : String) : Json
deriving DecidableEq, Repr

/-- JSON string escaping of a single character (quote and backslash). -/
def escapeChar (c : Char) : List Char :=
  if c = '"' ∨ c = '\\' then ['\\', c] else [c]

/-- Stringify (JS `JSON.stringify`) on the modelled fragment. -/
def serialize : Json → String
  | Json.null => "null"
  | Json.bool true => "true"
  | Json.bool false => "false"
  | Json.num n => printInt n
  | Json.str s => String.mk ('"' :: ((s.data.map escapeChar).flatten ++ ['"']))

/-- Parse the body of a JSON string literal up to its closing quote,
returning the unescaped content and the remaining input. -/
def parseStrBody : List Char → Option (List Char × List Char)
  | [] => none
  | c :: rest =>
    if c = '"' then some ([], rest)
    else if c = '\\' then
      match rest with
      | [] => none
      | d :: rest2 =>
        match parseStrBody rest2 with
        | none => none
        | some p => some (d :: p.1, p.2)
    else
      match parseStrBody rest with
      | none => none
      | some p => some (c :: p.1, p.2)

/-- Parse (JS `JSON.parse`) on the modelled fragment; `none` is a parse error. -/
def deserialize (raw : String) : Option Json :=
  if raw = "null" then some Json.null
  else if raw = "true" then some (Json.bool true)
  else if raw = "false" then some (Json.bool false)
  else
    match raw.data with
    | [] => none
    | c :: rest =>
      if c = '"' then
        match parseStrBody rest with
        | none => none
        | some p => if p.2 = [] then some (Json.str (String.mk p.1)) else none
      else
        match parseInt (c :: rest) with
        | none => none
        | some n => some (Json.num n)

theorem parseStrBody_escape (s : List Char) (tail : List Char) :
    parseStrBody ((s.map escapeChar).flatten ++ '"' :: tail) = some (s, tail) := by
  induction s with
  | nil =>
    simp only [List.map_nil, List.flatten, List.nil_append]
    rw [parseStrBody.eq_def]
    simp
  | cons c cs ih =>
    simp only [List.map_cons, List.flatten_cons, List.append_assoc]
    by_cases hc : c = '"' ∨ c = '\\'
    · rw [escapeChar, if_pos hc]
      rw [show (['\\', c] ++ ((cs.map escapeChar).flatten ++ '"' :: tail)) =
        '\\' :: (c :: ((cs.map escapeChar).flatten ++ '"' :: tail)) from rfl]
      rw [parseStrBody.eq_def]
      simp [ih]
    · rw [escapeChar, if_neg hc]
      push_neg at hc
      rw [List.singleton_append, parseStrBody.eq_def]
      simp only [if_neg hc.1, if_neg hc.2, ih]

theorem serialize_ne_empty (v : Json) : serialize v ≠ "" := by
  cases v with
  | null => decide
  | bool b => cases b <;> decide
  | num n => exact printInt_ne_empty n
  | str s =>
    intro h
    have h2 := congrArg String.data h
    have he : ("" : String).data = [] := rfl
    rw [he] at h2
    simp [serialize] at h2

theorem printInt_data_ne_string_lit (n : Int) (lit : String)
    (hlit : parseInt lit.data = none) : ¬ (printInt n = lit) := by
  intro h
  have hr := parseInt_printInt n
  rw [h, hlit] at hr
  exact Option.noConfusion hr

theorem deserialize_serialize (v : Json) : deserialize (serialize v) = some v := by
  cases v with
  | null => decide
  | bool b => cases b <;> decide
  | num n =>
    have h1 : ¬ (printInt n = "null") :=
      printInt_data_ne_string_lit n "null" (by decide)
    have h2 : ¬ (printInt n = "true") :=
      printInt_data_ne_string_lit n "true" (by decide)
    have h3 : ¬ (printInt n = "false") :=
      printInt_data_ne_string_lit n "false" (by decide)
    rw [show serialize (Json.num n) = printInt n from rfl]
    rw [deserialize, if_neg h1, if_neg h2, if_neg h3]
    rcases hd : (printInt n).data with _ | ⟨c, cs⟩
    · have hr := parseInt_printInt n
      rw [hd] at hr
      rw [parseInt.eq_def] at hr
      exact Option.noConfusion hr
    · have hr := parseInt_printInt n
      rw [hd] at hr
      have hcq : ¬ (c = '"') := by
        intro hq
        rcases parseInt_some_head hr with hdig | hmin
        · rw [hq] at hdig; exact absurd hdig (by decide)
        · rw [hq] at hmin; exact absurd hmin (by decide)
      simp only [if_neg hcq, hr]
  | str s =>
    have hdata : (serialize (Json.str s)).data = '"' :: ((s.data.map escapeChar).flatten ++ ['"']) := rfl
    have hlit : ∀ lit : String, lit.data.head? ≠ some '"' → ¬ (serialize (Json.str s) = lit) := by
      intro lit hq h
      apply hq
      rw [← congrArg String.data h, hdata]
      rfl
    rw [deserialize,
      if_neg (hlit "null" (by decide)), if_neg (hlit "true" (by decide)),
      if_neg (hlit "false" (by decide)), hdata]
    simp only [if_pos rfl]
    rw [show ((s.data.map escapeChar).flatten ++ ['"']) = ((s.data.map escapeChar).flatten ++ '"' :: []) from rfl]
    rw [parseStrBody_escape]
    simp

/-!
Redis-style glob matching ('*' wildcard, as used by the `KEYS` command on
the patterns this system builds), and the key-value store model: a list
of entries (key, raw string value, optional absolute expiry in epoch ms)
plus a reachability flag.  Redis primitives return `none` on store error
(store unreachable, or a command error such as INCR on a non-integer).
-/

/-- Redis `KEYS`-style glob matching of a pattern against a key. -/
def globMatch : List Char → List Char → Bool
  | [], s => s.isEmpty
  | p :: ps, s =>
    if p = '*' then (s.tails).any (fun t => globMatch ps t)
    else
      match s with
      | [] => false
      | c :: cs => p == c && globMatch ps cs

/-- One stored key with its raw payload and optional absolute expiry (ms). -/
structure Entry where
  key : String
  val : String
  exp : Option Nat
deriving DecidableEq, Repr

/-- The shared store: reachability flag plus entry list. -/
structure Store where
  reachable : Bool
  data : List Entry
deriving DecidableEq, Repr

/-- First entry recorded under a key (expired entries included). -/
def lookupEntry (l : List Entry) (k : String) : Option Entry :=
  l.find? (fun e => e.key == k)

/-- The entry is visible at time `now` (Redis lazy expiry). -/
def isLive (now : Nat) (e : Entry) : Bool :=
  match e.exp with
  | none => true
  | some t => now < t

/-- Raw value visible under a key at time `now`. -/
def lookupVal (l : List Entry) (now : Nat) (k : String) : Option String :=
  match lookupEntry l k with
  | none => none
  | some e => if isLive now e then some e.val else none

/-- Write a key, replacing any previous entry for it. -/
def upsert (k v : String) (exp : Option Nat) (l : List Entry) : List Entry :=
  ⟨k, v, exp⟩ :: l.filter (fun e => !(e.key == k))

/-- Delete every entry whose key is listed. -/
def removeKeys (ks : List String) (l : List Entry) : List Entry :=
  l.filter (fun e => !(ks.contains e.key))

/-- Keys the Redis `KEYS pattern` command reports at time `now`. -/
def visibleKeys (now : Nat) (pat : String) (l : List Entry) : List String :=
  (l.filter (fun e => isLive now e && globMatch pat.data e.key.data)).map (fun e => e.key)

/-- Redis `GET`. -/
def redisGet (st : Store) (now : Nat) (k : String) : Option (Option String) :=
  if st.reachable then some (lookupVal st.data now k) else none

/-- Redis `SETEX` (errors on a non-positive expiry). -/
def redisSetex (st : Store) (now : Nat) (k : String) (ttl : Nat) (v : String) : Option Store :=
  if st.reachable && decide (0 < ttl) then
    some { st with data := upsert k v (some (now + 1000 * ttl)) st.data }
  else none

/-- Redis `DEL key...`: returns how many listed keys existed. -/
def redisDelKeys (st : Store) (now : Nat) (ks : List String) : Option (Nat × Store) :=
  if st.reachable then
    some ((ks.filter (fun k => (lookupVal st.data now k).isSome)).length,
      { st with data := removeKeys ks st.data })
  else none

/-- Redis `KEYS pattern`. -/
def redisKeys (st : Store) (now : Nat) (pat : String) : Option (List String) :=
  if st.reachable then some (visibleKeys now pat st.data) else none

/-- Redis `EXISTS`. -/
def redisExists (st : Store) (now : Nat) (k : String) : Option Nat :=
  if st.reachable then some (if (lookupVal st.data now k).isSome then 1 else 0) else none

/-- Redis `TTL`: -2 if absent, -1 if no expiry, else remaining seconds. -/
def redisTtl (st : Store) (now : Nat) (k : String) : Option Int :=
  if st.reachable then
    some (match lookupEntry st.data k with
      | none => -2
      | some e =>
        if isLive now e then
          match e.exp with
          | none => -1
          | some t => ((t - now) + 999) / 1000
        else -2)
  else none

/-- Redis `INCR`: initializes an absent key to 0 before incrementing and
keeps the existing expiry; errors on a non-integer payload. -/
def redisIncr (st : Store) (now : Nat) (k : String) : Option (Int × Store) :=
  if st.reachable then
    match lookupEntry st.data k with
    | none => some (1, { st with data := upsert k "1" none st.data })
    | some e =>
      if isLive now e then
        match parseInt e.val.data with
        | none => none
        | some n => some (n + 1, { st with data := upsert k (printInt (n + 1)) e.exp st.data })
      else some (1, { st with data := upsert k "1" none st.data })
  else none

/-- Redis `EXPIRE` (a zero ttl deletes the key). -/
def redisExpire (st : Store) (now : Nat) (k : String) (t : Nat) : Option (Bool × Store) :=
  if st.reachable then
    match lookupEntry st.data k with
    | none => some (false, st)
    | some e =>
      if isLive now e then
        if t = 0 then some (true, { st with data := removeKeys [k] st.data })
        else some (true, { st with data := upsert k e.val (some (now + 1000 * t)) st.data })
      else some (false, st)
  else none

/-!
`CacheService` (src/src/types/index.ts): each operation catches any store
error and maps it to a safe default, exactly as the TS try/catch blocks
do.  The TS `get` returns `null` both for an absent key, an empty
payload, a payload whose parse fails, and a stored JSON `null`; `Json.null`
is that shared sentinel, so `get` returns `Json` rather than `Option Json`.
-/

/-- Embeds `CacheService.get`: absent / error / unparsable payloads all map to null. -/
def CacheService.get (st : Store) (now : Nat) (k : String) : Json :=
  match redisGet st now k with
  | none => Json.null
  | some none => Json.null
  | some (some raw) =>
    if raw = "" then Json.null
    else
      match deserialize raw with
      | none => Json.null
      | some v => v

/-- Embeds `CacheService.set`: setex of the stringified value; false on error. -/
def CacheService.set (st : Store) (now : Nat) (k : String) (v : Json) (ttl : Nat) : Bool × Store :=
  match redisSetex st now k ttl (serialize v) with
  | none => (false, st)
  | some st2 => (true, st2)

/-- Embeds `CacheService.del`: true unless the store errored. -/
def CacheService.del (st : Store) (now : Nat) (k : String) : Bool × Store :=
  match redisDelKeys st now [k] with
  | none => (false, st)
  | some p => (true, p.2)

/-- Embeds `CacheService.delPattern`: `keys pattern` then a single `del`; 0 on error
or when no key matches. -/
def CacheService.delPattern (st : Store) (now : Nat) (pat : String) : Nat × Store :=
  match redisKeys st now pat with
  | none => (0, st)
  | some ks =>
    if ks.isEmpty then (0, st)
    else
      match redisDelKeys st now ks with
      | none => (0, st)
      | some p => p

/-- Embeds `CacheService.exists` (named `existsKey` here): true iff the exists reply is 1. -/
def CacheService.existsKey (st : Store) (now : Nat) (k : String) : Bool :=
  match redisExists st now k with
  | none => false
  | some n => n == 1

/-- Embeds `CacheService.ttl`: -1 on store error. -/
def CacheService.ttl (st : Store) (now : Nat) (k : String) : Int :=
  match redisTtl st now k with
  | none => -1
  | some t => t

/-- Embeds `CacheService.incr`: `incr key`, then `expire key ttl` only when a
truthy ttl was supplied and the post-increment value is 1; 0 on error. -/
def CacheService.incr (st : Store) (now : Nat) (k : String) (ttl : Option Nat) : Int × Store :=
  match redisIncr st now k with
  | none => (0, st)
  | some r =>
    match ttl with
    | none => r
    | some t =>
      if t ≠ 0 ∧ r.1 = 1 then
        match redisExpire r.2 now k t with
        | none => (0, r.2)
        | some p => (r.1, p.2)
      else r

/-!
Cache key patterns (`CACHE_PATTERNS` in src/src/types/index.ts) and the
`CacheInvalidator` operations the claims exercise.  Each invalidator call
issues the pattern deletions sequentially through `CacheService.delPattern`.
-/

/-- Embeds `CACHE_PATTERNS.USER_EXPENSES`. -/
def CACHE_PATTERNS.USER_EXPENSES (userId : String) : String :=
  "user:" ++ userId ++ ":expenses*"

/-- Embeds `CACHE_PATTERNS.USER_CATEGORIES`. -/
def CACHE_PATTERNS.USER_CATEGORIES (userId : String) : String :=
  "user:" ++ userId ++ ":categories*"

/-- Embeds `CACHE_PATTERNS.CATEGORY_ALL`. -/
def CACHE_PATTERNS.CATEGORY_ALL (categoryId : Nat) : String :=
  "category:" ++ printNat categoryId ++ "*"

/-- Embeds `CacheInvalidator.invalidateUserExpenses`. -/
def CacheInvalidator.invalidateUserExpenses (st : Store) (now : Nat) (userId : String) : Store :=
  (CacheService.delPattern st now (CACHE_PATTERNS.USER_EXPENSES userId)).2

/-- Embeds `CacheInvalidator.invalidateCategory`: deletes the category
pattern, then the user category-list pattern when a userId is supplied.
The TS guards the extra deletion with JS truthiness (`if (userId)`), so a
supplied empty string behaves like an absent userId. -/
def CacheInvalidator.invalidateCategory (st : Store) (now : Nat) (categoryId : Nat)
    (userId : Option String) : Store :=
  let st1 := (CacheService.delPattern st now (CACHE_PATTERNS.CATEGORY_ALL categoryId)).2
  match userId with
  | none => st1
  | some u =>
    if u = "" then st1
    else (CacheService.delPattern st1 now (CACHE_PATTERNS.USER_CATEGORIES u)).2

/-!
`RateLimitService` (src/unnamed/part_000).  `checkRateLimit` computes the
fixed window start, builds the composite counter key, increments it with
TTL `Math.ceil(windowMs / 1000)` and derives the result fields.  The TS
catch block around the increment is unreachable because `CacheService.incr`
already absorbs every store error into its safe default 0.
-/

/-- The result record returned by the rate limiter. -/
structure RateLimitResult where
  allowed : Bool
  remaining : Int
  resetTime : Nat
  totalHits : Int
deriving DecidableEq, Repr

/-- Window start, JS `Math.floor(now / windowMs) * windowMs`. -/
def rateLimitWindowStart (now windowMs : Nat) : Nat :=
  now / windowMs * windowMs

/-- The composite counter key `rate_limit:` + key + `:` + windowStart. -/
def rateLimitCacheKey (key : String) (windowStart : Nat) : String :=
  "rate_limit:" ++ key ++ ":" ++ printNat windowStart

/-- Ceiling division, JS `Math.ceil(a / b)` on naturals. -/
def ceilDiv (a b : Nat) : Nat := (a + b - 1) / b

/-- Embeds `RateLimitService.checkRateLimit`. -/
def RateLimitService.checkRateLimit (st : Store) (now : Nat) (key : String)
    (limit : Int) (windowMs : Nat) : RateLimitResult × Store :=
  let windowStart := rateLimitWindowStart now windowMs
  let cacheKey := rateLimitCacheKey key windowStart
  let r := CacheService.incr st now cacheKey (some (ceilDiv windowMs 1000))
  ({ allowed := decide (r.1 ≤ limit),
     remaining := max 0 (limit - r.1),
     resetTime := windowStart + windowMs,
     totalHits := r.1 }, r.2)

/-!
Helper lemmas about the store model: how lookups interact with `upsert`
and `removeKeys`, what `visibleKeys` contains, and how the cache
operations reduce under a reachable or unreachable store.
-/

theorem lookupEntry_cons_self (e : Entry) (l : List Entry) :
    lookupEntry (e :: l) e.key = some e := by
  simp [lookupEntry]

theorem lookupEntry_cons_ne {e : Entry} {k : String} (l : List Entry) (h : ¬ (e.key = k)) :
    lookupEntry (e :: l) k = lookupEntry l k := by
  simp [lookupEntry, h]

theorem lookupEntry_upsert_self (k v : String) (e : Option Nat) (l : List Entry) :
    lookupEntry (upsert k v e l) k = some ⟨k, v, e⟩ := by
  simp [upsert, lookupEntry]

theorem upsert_upsert (k v1 v2 : String) (e1 e2 : Option Nat) (l : List Entry) :
    upsert k v2 e2 (upsert k v1 e1 l) = upsert k v2 e2 l := by
  simp [upsert, List.filter_filter]

theorem removeKeys_nil (l : List Entry) : removeKeys [] l = l := by
  simp [removeKeys]

theorem lookupEntry_removeKeys (ks : List String) (l : List Entry) (k : String) :
    lookupEntry (removeKeys ks l) k = if k ∈ ks then none else lookupEntry l k := by
  induction l with
  | nil => simp [removeKeys, lookupEntry]
  | cons e l ih =>
    by_cases he : e.key ∈ ks
    · rw [removeKeys, List.filter_cons_of_neg (by simpa using he)]
      rw [show List.filter (fun en => !(ks.contains en.key)) l = removeKeys ks l from rfl, ih]
      by_cases hk : k ∈ ks
      · rw [if_pos hk, if_pos hk]
      · rw [if_neg hk, if_neg hk]
        have hek : ¬ (e.key = k) := fun hh => hk (hh ▸ he)
        rw [lookupEntry_cons_ne l hek]
    · rw [removeKeys, List.filter_cons_of_pos (by simpa using he)]
      by_cases hek : e.key = k
      · have hk : ¬ (k ∈ ks) := fun hh => he (hek ▸ hh)
        rw [if_neg hk, ← hek, lookupEntry_cons_self, lookupEntry_cons_self]
      · rw [lookupEntry_cons_ne _ hek]
        rw [show List.filter (fun en => !(ks.contains en.key)) l = removeKeys ks l from rfl, ih]
        by_cases hk : k ∈ ks
        · rw [if_pos hk, if_pos hk]
        · rw [if_neg hk, if_neg hk, lookupEntry_cons_ne l hek]

theorem lookupVal_removeKeys (ks : List String) (l : List Entry) (now : Nat) (k : String) :
    lookupVal (removeKeys ks l) now k = if k ∈ ks then none else lookupVal l now k := by
  rw [lookupVal, lookupEntry_removeKeys]
  by_cases h : k ∈ ks
  · simp [h]
  · simp [h, lookupVal]

theorem visibleKeys_glob {now : Nat} {pat : String} {l : List Entry} {k : String}
    (h : k ∈ visibleKeys now pat l) : globMatch pat.data k.data = true := by
  rw [visibleKeys] at h
  obtain ⟨e, he, hk⟩ := List.mem_map.mp h
  have h2 := (List.mem_filter.mp he).2
  rw [Bool.and_eq_true] at h2
  rw [← hk]
  exact h2.2

theorem lookupVal_some_entry {l : List Entry} {now : Nat} {k raw : String}
    (h : lookupVal l now k = some raw) :
    ∃ e, lookupEntry l k = some e ∧ isLive now e = true ∧ e.val = raw ∧ e.key = k ∧ e ∈ l := by
  rw [lookupVal] at h
  rcases he : lookupEntry l k with _ | e <;> rw [he] at h
  · exact Option.noConfusion h
  · by_cases hl : isLive now e = true
    · refine ⟨e, rfl, hl, ?_, ?_, ?_⟩
      · change (if isLive now e = true then some e.val else none) = some raw at h
        rw [if_pos hl] at h
        injection h
      · have h3 := List.find?_some he
        simpa using h3
      · exact List.mem_of_find?_eq_some he
    · change (if isLive now e = true then some e.val else none) = some raw at h
      rw [if_neg hl] at h
      exact Option.noConfusion h

theorem mem_visibleKeys_of_lookupVal {l : List Entry} {now : Nat} {k raw : String} {pat : String}
    (h : lookupVal l now k = some raw) (hg : globMatch pat.data k.data = true) :
    k ∈ visibleKeys now pat l := by
  obtain ⟨e, _, hlive, _, hkey, hmem⟩ := lookupVal_some_entry h
  rw [visibleKeys]
  refine List.mem_map.mpr ⟨e, List.mem_filter.mpr ⟨hmem, ?_⟩, hkey⟩
  rw [Bool.and_eq_true, hkey]
  exact ⟨hlive, hg⟩

theorem delPattern_snd {st : Store} (h : st.reachable = true) (now : Nat) (pat : String) :
    (CacheService.delPattern st now pat).2 =
      { st with data := removeKeys (visibleKeys now pat st.data) st.data } := by
  by_cases he : (visibleKeys now pat st.data).isEmpty
  · have hnil : visibleKeys now pat st.data = [] := List.isEmpty_iff.mp he
    simp [CacheService.delPattern, redisKeys, redisDelKeys, h, hnil, removeKeys_nil]
    cases st
    simp_all
  · simp [CacheService.delPattern, redisKeys, redisDelKeys, h, he]

theorem delPattern_reachable {st : Store} (h : st.reachable = true) (now : Nat) (pat : String) :
    (CacheService.delPattern st now pat).2.reachable = true := by
  rw [delPattern_snd h]
  exact h

theorem get_eq_null_of_lookupVal_none {st : Store} {now : Nat} {k : String}
    (h : lookupVal st.data now k = none) : CacheService.get st now k = Json.null := by
  by_cases hr : st.reachable = true
  · simp [CacheService.get, redisGet, hr, h]
  · simp [CacheService.get, redisGet, hr]

theorem get_eq_of_lookupVal_serialize {st : Store} {now : Nat} {k : String} {v : Json}
    (h : st.reachable = true) (hv : lookupVal st.data now k = some (serialize v)) :
    CacheService.get st now k = v := by
  simp [CacheService.get, redisGet, h, hv, serialize_ne_empty v, deserialize_serialize v]

theorem incr_fresh {st : Store} (h : st.reachable = true) {now : Nat} {k : String}
    (hl : lookupVal st.data now k = none) {t : Nat} (ht : 0 < t) :
    CacheService.incr st now k (some t) =
      (1, { st with data := upsert k "1" (some (now + 1000 * t)) st.data }) := by
  have hstep : redisIncr st now k = some (1, { st with data := upsert k "1" none st.data }) := by
    rw [redisIncr, if_pos h]
    rcases he : lookupEntry st.data k with _ | e
    · rfl
    · have hdead : ¬ (isLive now e = true) := by
        intro hlive
        rw [lookupVal, he] at hl
        change (if isLive now e = true then some e.val else none) = none at hl
        rw [if_pos hlive] at hl
        exact Option.noConfusion hl
      simp [hdead]
  have hexp : redisExpire { st with data := upsert k "1" none st.data } now k t =
      some (true, { st with data := upsert k "1" (some (now + 1000 * t)) st.data }) := by
    rw [redisExpire]
    simp only [h, if_true]
    rw [lookupEntry_upsert_self]
    have hlive : isLive now (⟨k, "1", none⟩ : Entry) = true := rfl
    simp [hlive, if_neg (by omega : ¬ (t = 0)), upsert_upsert]
  simp only [CacheService.incr, hstep]
  rw [if_pos (show t ≠ 0 ∧ True from ⟨by omega, trivial⟩)]
  simp [hexp]

theorem incr_existing {st : Store} (h : st.reachable = true) {now : Nat} {k : String}
    {e : Entry} {n : Int} (he : lookupEntry st.data k = some e) (hlive : isLive now e = true)
    (hp : parseInt e.val.data = some n) (hne : ¬ (n + 1 = 1)) (t : Nat) :
    CacheService.incr st now k (some t) =
      (n + 1, { st with data := upsert k (printInt (n + 1)) e.exp st.data }) := by
  have hstep : redisIncr st now k =
      some (n + 1, { st with data := upsert k (printInt (n + 1)) e.exp st.data }) := by
    rw [redisIncr, if_pos h, he]
    simp [hlive, hp]
  simp [CacheService.incr, hstep, hne]

theorem globMatch_head {p : Char} {ps ks : List Char} (hp : ¬ (p = '*'))
    (h : globMatch (p :: ps) ks = true) : ∃ t, ks = p :: t := by
  cases ks with
  | nil =>
    rw [globMatch, if_neg hp] at h
    simp at h
  | cons c cs =>
    rw [globMatch, if_neg hp] at h
    rw [Bool.and_eq_true] at h
    have : p = c := by simpa using h.1
    exact ⟨cs, by rw [this]⟩

theorem userCategoriesPattern_head (uid : String) :
    (CACHE_PATTERNS.USER_CATEGORIES uid).data =
      'u' :: (("ser:" : String).data ++ uid.data ++ (":categories*" : String).data) := by
  rw [CACHE_PATTERNS.USER_CATEGORIES, String.data_append, String.data_append]
  rfl

theorem categoryPattern_head (c : Nat) :
    (CACHE_PATTERNS.CATEGORY_ALL c).data =
      'c' :: (("ategory:" : String).data ++ (printNat c).data ++ ("*" : String).data) := by
  rw [CACHE_PATTERNS.CATEGORY_ALL, String.data_append, String.data_append]
  rfl

theorem glob_userCategories_not_category {uid k : String} {c : Nat}
    (h : globMatch (CACHE_PATTERNS.USER_CATEGORIES uid).data k.data = true) :
    globMatch (CACHE_PATTERNS.CATEGORY_ALL c).data k.data = false := by
  rw [userCategoriesPattern_head] at h
  obtain ⟨t, ht⟩ := globMatch_head (by decide) h
  rw [categoryPattern_head, ht, globMatch, if_neg (by decide)]
  simp

theorem isLive_now_lt {now t : Nat} (k v : String) (h : now < t) :
    isLive now ⟨k, v, some t⟩ = true := by
  simp [isLive, h]

theorem isLive_now_ge {now t : Nat} (k v : String) (h : ¬ (now < t)) :
    isLive now ⟨k, v, some t⟩ = false := by
  simp [isLive, h]

theorem lookupVal_upsert_live {now t : Nat} (h : now < t) (k v : String) (l : List Entry) :
    lookupVal (upsert k v (some t) l) now k = some v := by
  rw [lookupVal, lookupEntry_upsert_self]
  change (if isLive now (⟨k, v, some t⟩ : Entry) = true then some v else none) = some v
  simp [isLive_now_lt k v h]

theorem lookupVal_upsert_dead {now t : Nat} (h : ¬ (now < t)) (k v : String) (l : List Entry) :
    lookupVal (upsert k v (some t) l) now k = none := by
  rw [lookupVal, lookupEntry_upsert_self]
  change (if isLive now (⟨k, v, some t⟩ : Entry) = true then some v else none) = none
  simp [isLive_now_ge k v h]

theorem set_eq_of_reachable {st : Store} (h : st.reachable = true) (now : Nat)
    (k : String) (v : Json) {t : Nat} (ht : 0 < t) :
    CacheService.set st now k v t =
      (true, { st with data := upsert k (serialize v) (some (now + 1000 * t)) st.data }) := by
  rw [CacheService.set, redisSetex]
  simp [h, ht]

/-- C1: every `checkRateLimit` call derives its result from the
post-increment counter value: `allowed` iff `totalHits ≤ limit`,
`remaining = max(0, limit - totalHits)`, `resetTime = windowStart + windowMs`
with `windowStart = floor(now / windowMs) * windowMs`, where the counter
increment is `CacheService.incr` on the key
`rate_limit:` + subjectKey + `:` + windowStart with TTL
`ceil(windowMs / 1000)`. -/
theorem C1_checkRateLimit_formulas (st : Store) (now : Nat) (subjectKey : String)
    (limit : Int) (windowMs : Nat) :
    ((RateLimitService.checkRateLimit st now subjectKey limit windowMs).1.allowed = true ↔
      (RateLimitService.checkRateLimit st now subjectKey limit windowMs).1.totalHits ≤ limit) ∧
    (RateLimitService.checkRateLimit st now subjectKey limit windowMs).1.remaining =
      max 0 (limit - (RateLimitService.checkRateLimit st now subjectKey limit windowMs).1.totalHits) ∧
    (RateLimitService.checkRateLimit st now subjectKey limit windowMs).1.resetTime =
      now / windowMs * windowMs + windowMs ∧
    (RateLimitService.checkRateLimit st now subjectKey limit windowMs).1.totalHits =
      (CacheService.incr st now ("rate_limit:" ++ subjectKey ++ ":" ++ printNat (now / windowMs * windowMs))
        (some (ceilDiv windowMs 1000))).1 ∧
    (RateLimitService.checkRateLimit st now subjectKey limit windowMs).2 =
      (CacheService.incr st now ("rate_limit:" ++ subjectKey ++ ":" ++ printNat (now / windowMs * windowMs))
        (some (ceilDiv windowMs 1000))).2 := by
  refine ⟨?_, rfl, rfl, rfl, rfl⟩
  exact decide_eq_true_iff

/-- C2: when every store operation fails (store unreachable), the limiter
fails open: `checkRateLimit` returns `allowed = true` and
`remaining = limit` for any nonnegative limit and positive window, the
store is left untouched, and (being a total function) no error reaches
the caller. -/
theorem C2_checkRateLimit_fail_open (st : Store) (now : Nat) (subjectKey : String)
    (limit : Int) (windowMs : Nat) (hst : st.reachable = false) (hl : 0 ≤ limit)
    (_hw : 0 < windowMs) :
    (RateLimitService.checkRateLimit st now subjectKey limit windowMs).1.allowed = true ∧
    (RateLimitService.checkRateLimit st now subjectKey limit windowMs).1.remaining = limit ∧
    (RateLimitService.checkRateLimit st now subjectKey limit windowMs).2 = st := by
  have hincr : CacheService.incr st now
      (rateLimitCacheKey subjectKey (rateLimitWindowStart now windowMs))
      (some (ceilDiv windowMs 1000)) = (0, st) := by
    simp [CacheService.incr, redisIncr, hst]
  refine ⟨?_, ?_, ?_⟩
  · simp [RateLimitService.checkRateLimit, hincr, hl]
  · simp [RateLimitService.checkRateLimit, hincr]
    omega
  · simp [RateLimitService.checkRateLimit, hincr]

theorem C2_checkRateLimit_fail_open_witness :
    (RateLimitService.checkRateLimit ⟨false, []⟩ 0 "ip1" 5 1000).1.allowed = true ∧
    (RateLimitService.checkRateLimit ⟨false, []⟩ 0 "ip1" 5 1000).1.remaining = 5 := by
  have h := C2_checkRateLimit_fail_open ⟨false, []⟩ 0 "ip1" 5 1000 rfl (by decide) (by decide)
  exact ⟨h.1, h.2.1⟩

/-- C3: on a healthy store, `set(k, v, t)` with `t > 0` succeeds and an
immediate `get(k)` returns a value equal to `v`; a `get(k)` more than `t`
seconds (1000·t ms) after the set returns the absent sentinel. -/
theorem C3_set_get_roundtrip_and_expiry (st : Store) (now : Nat) (k : String) (v : Json)
    (t : Nat) (h : st.reachable = true) (ht : 0 < t) :
    (CacheService.set st now k v t).1 = true ∧
    CacheService.get (CacheService.set st now k v t).2 now k = v ∧
    (∀ now2, now + 1000 * t < now2 →
      CacheService.get (CacheService.set st now k v t).2 now2 k = Json.null) := by
  rw [set_eq_of_reachable h now k v ht]
  refine ⟨rfl, ?_, ?_⟩
  · refine get_eq_of_lookupVal_serialize ?_ ?_
    · exact h
    · exact lookupVal_upsert_live (by omega : now < now + 1000 * t) k (serialize v) st.data
  · intro now2 h2
    refine get_eq_null_of_lookupVal_none ?_
    exact lookupVal_upsert_dead (by omega : ¬ (now2 < now + 1000 * t)) k (serialize v) st.data

theorem C3_set_get_roundtrip_and_expiry_witness :
    (CacheService.set ⟨true, []⟩ 0 "k" (Json.num 7) 1).1 = true ∧
    CacheService.get (CacheService.set ⟨true, []⟩ 0 "k" (Json.num 7) 1).2 0 "k" = Json.num 7 ∧
    CacheService.get (CacheService.set ⟨true, []⟩ 0 "k" (Json.num 7) 1).2 2000 "k" = Json.null := by
  have h := C3_set_get_roundtrip_and_expiry ⟨true, []⟩ 0 "k" (Json.num 7) 1 rfl (by decide)
  exact ⟨h.1, h.2.1, h.2.2 2000 (by decide)⟩

/-- C9: an unreachable store (covering unavailability and timeouts) makes
every `CacheService` operation return its safe default without mutating
anything — `get` the absent sentinel, `set` false, `del` false,
`delPattern` 0, `exists` false, `ttl` -1, `incr` 0 — and a serialization
fault (unparsable payload) makes `get` return the absent sentinel as
well; each operation is a total function, so no store error propagates. -/
theorem C9_cacheService_safe_defaults (st : Store) (now : Nat) (k pat : String) (v : Json)
    (t : Nat) (ttlArg : Option Nat) (raw : String) (l2 : List Entry)
    (hst : st.reachable = false) :
    CacheService.get st now k = Json.null ∧
    CacheService.set st now k v t = (false, st) ∧
    CacheService.del st now k = (false, st) ∧
    CacheService.delPattern st now pat = (0, st) ∧
    CacheService.existsKey st now k = false ∧
    CacheService.ttl st now k = -1 ∧
    CacheService.incr st now k ttlArg = (0, st) ∧
    (deserialize raw = none →
      CacheService.get ⟨true, ⟨k, raw, none⟩ :: l2⟩ now k = Json.null) := by
  refine ⟨?_, ?_, ?_, ?_, ?_, ?_, ?_, ?_⟩
  · simp [CacheService.get, redisGet, hst]
  · simp [CacheService.set, redisSetex, hst]
  · simp [CacheService.del, redisDelKeys, hst]
  · simp [CacheService.delPattern, redisKeys, hst]
  · simp [CacheService.existsKey, redisExists, hst]
  · simp [CacheService.ttl, redisTtl, hst]
  · simp [CacheService.incr, redisIncr, hst]
  · intro hraw
    have hlook : lookupVal (⟨k, raw, none⟩ :: l2) now k = some raw := by
      rw [lookupVal, show lookupEntry (⟨k, raw, none⟩ :: l2) k = some ⟨k, raw, none⟩ from
        lookupEntry_cons_self ⟨k, raw, none⟩ l2]
      rfl
    by_cases hempty : raw = ""
    · subst hempty
      simp [CacheService.get, redisGet, hlook]
    · simp [CacheService.get, redisGet, hlook, hempty, hraw]

theorem C9_cacheService_safe_defaults_witness :
    CacheService.ttl ⟨false, []⟩ 0 "k" = -1 ∧
    CacheService.incr ⟨false, []⟩ 0 "k" none = (0, ⟨false, []⟩) ∧
    CacheService.get ⟨true, [⟨"k", "x", none⟩]⟩ 0 "k" = Json.null := by
  have h := C9_cacheService_safe_defaults ⟨false, []⟩ 0 "k" "p" Json.null 1 none "x" [] rfl
  exact ⟨h.2.2.2.2.2.1, h.2.2.2.2.2.2.1, h.2.2.2.2.2.2.2 (by decide)⟩

/-- C10: on a healthy store, `set(k, null, t)` succeeds (returns true) and
stores the serialized text `null`, so the key exists in the store, yet an
immediate `get(k)` returns the absent sentinel — a stored null is
indistinguishable from a cache miss at the `get` interface. -/
theorem C10_set_null_indistinguishable_from_miss (st : Store) (now : Nat) (k : String)
    (t : Nat) (h : st.reachable = true) (ht : 0 < t) :
    (CacheService.set st now k Json.null t).1 = true ∧
    lookupVal (CacheService.set st now k Json.null t).2.data now k = some "null" ∧
    CacheService.existsKey (CacheService.set st now k Json.null t).2 now k = true ∧
    CacheService.get (CacheService.set st now k Json.null t).2 now k = Json.null := by
  rw [set_eq_of_reachable h now k Json.null ht]
  have hlook : lookupVal (upsert k (serialize Json.null) (some (now + 1000 * t)) st.data) now k =
      some "null" := by
    exact lookupVal_upsert_live (by omega : now < now + 1000 * t) k (serialize Json.null) st.data
  refine ⟨rfl, hlook, ?_, ?_⟩
  · simp [CacheService.existsKey, redisExists, h, hlook]
  · exact get_eq_of_lookupVal_serialize h hlook

theorem C10_set_null_indistinguishable_from_miss_witness :
    (CacheService.set ⟨true, []⟩ 0 "k" Json.null 1).1 = true ∧
    CacheService.existsKey (CacheService.set ⟨true, []⟩ 0 "k" Json.null 1).2 0 "k" = true ∧
    CacheService.get (CacheService.set ⟨true, []⟩ 0 "k" Json.null 1).2 0 "k" = Json.null := by
  have h := C10_set_null_indistinguishable_from_miss ⟨true, []⟩ 0 "k" 1 rfl (by decide)
  exact ⟨h.1, h.2.2.1, h.2.2.2⟩

theorem incr_unreachable {st : Store} (h : ¬ (st.reachable = true)) (now : Nat) (k : String)
    (ttlArg : Option Nat) : CacheService.incr st now k ttlArg = (0, st) := by
  simp [CacheService.incr, redisIncr, h]

theorem incr_parse_error {st : Store} (h : st.reachable = true) {now : Nat} {k : String}
    {e : Entry} (he : lookupEntry st.data k = some e) (hlive : isLive now e = true)
    (hp : parseInt e.val.data = none) (ttlArg : Option Nat) :
    CacheService.incr st now k ttlArg = (0, st) := by
  have hstep : redisIncr st now k = none := by
    rw [redisIncr, if_pos h, he]
    simp [hlive, hp]
  simp [CacheService.incr, hstep]

theorem incr_existing_zero {st : Store} (h : st.reachable = true) {now : Nat} {k : String}
    {e : Entry} (he : lookupEntry st.data k = some e) (hlive : isLive now e = true)
    (hp : parseInt e.val.data = some 0) {t : Nat} (ht : 0 < t) :
    CacheService.incr st now k (some t) =
      (1, { st with data := upsert k (printInt 1) (some (now + 1000 * t)) st.data }) := by
  have hstep : redisIncr st now k =
      some (1, { st with data := upsert k (printInt 1) e.exp st.data }) := by
    rw [redisIncr, if_pos h, he]
    simp [hlive, hp]
  have hlive2 : isLive now (⟨k, printInt 1, e.exp⟩ : Entry) = true := by
    have hsame : isLive now (⟨k, printInt 1, e.exp⟩ : Entry) = isLive now e := rfl
    rw [hsame]
    exact hlive
  have hexp : redisExpire { st with data := upsert k (printInt 1) e.exp st.data } now k t =
      some (true, { st with data := upsert k (printInt 1) (some (now + 1000 * t)) st.data }) := by
    rw [redisExpire]
    simp only [h, if_true]
    rw [lookupEntry_upsert_self]
    simp [hlive2, if_neg (by omega : ¬ (t = 0)), upsert_upsert]
  simp only [CacheService.incr, hstep]
  rw [if_pos (show t ≠ 0 ∧ True from ⟨by omega, trivial⟩)]
  simp [hexp]

theorem redisIncr_fresh {st : Store} (h : st.reachable = true) {now : Nat} {k : String}
    (hl : lookupVal st.data now k = none) :
    redisIncr st now k = some (1, { st with data := upsert k "1" none st.data }) := by
  rw [redisIncr, if_pos h]
  rcases he : lookupEntry st.data k with _ | e
  · rfl
  · have hdead : ¬ (isLive now e = true) := by
      intro hlive
      rw [lookupVal, he] at hl
      change (if isLive now e = true then some e.val else none) = none at hl
      rw [if_pos hlive] at hl
      exact Option.noConfusion hl
    simp [hdead]

theorem redisIncr_existing {st : Store} (h : st.reachable = true) {now : Nat} {k : String}
    {e : Entry} {n : Int} (he : lookupEntry st.data k = some e) (hlive : isLive now e = true)
    (hp : parseInt e.val.data = some n) :
    redisIncr st now k =
      some (n + 1, { st with data := upsert k (printInt (n + 1)) e.exp st.data }) := by
  rw [redisIncr, if_pos h, he]
  simp [hlive, hp]

theorem redisIncr_parse_error {st : Store} (h : st.reachable = true) {now : Nat} {k : String}
    {e : Entry} (he : lookupEntry st.data k = some e) (hlive : isLive now e = true)
    (hp : parseInt e.val.data = none) : redisIncr st now k = none := by
  rw [redisIncr, if_pos h, he]
  simp [hlive, hp]

theorem incr_falsy_of_redisIncr {st : Store} {now : Nat} {k : String} {r : Int × Store}
    (hri : redisIncr st now k = some r) {ttlArg : Option Nat}
    (hf : ttlArg = none ∨ ttlArg = some 0) :
    CacheService.incr st now k ttlArg = r := by
  rcases hf with rfl | rfl <;> simp [CacheService.incr, hri]

theorem incr_of_redisIncr_none {st : Store} {now : Nat} {k : String}
    (hri : redisIncr st now k = none) (ttlArg : Option Nat) :
    CacheService.incr st now k ttlArg = (0, st) := by
  simp [CacheService.incr, hri]

theorem incr_expiry_nonzero (st : Store) (now : Nat) (k : String) (t : Nat) (ht : 0 < t) :
    ((CacheService.incr st now k (some t)).1 = 1 →
      (lookupEntry (CacheService.incr st now k (some t)).2.data k).map Entry.exp =
        some (some (now + 1000 * t))) ∧
    (¬ ((CacheService.incr st now k (some t)).1 = 1) →
      (lookupEntry (CacheService.incr st now k (some t)).2.data k).map Entry.exp =
        (lookupEntry st.data k).map Entry.exp) := by
  by_cases hr : st.reachable = true
  · rcases he : lookupEntry st.data k with _ | e
    · have hl : lookupVal st.data now k = none := by rw [lookupVal, he]
      rw [incr_fresh hr hl ht]
      refine ⟨fun _ => ?_, fun hne => absurd rfl hne⟩
      rw [lookupEntry_upsert_self]
      rfl
    · by_cases hlive : isLive now e = true
      · rcases hp : parseInt e.val.data with _ | n
        · rw [incr_parse_error hr he hlive hp (some t)]
          exact ⟨fun h1 => absurd h1 (by simp), fun _ => by simp [he]⟩
        · by_cases h1 : n = 0
          · subst h1
            rw [incr_existing_zero hr he hlive hp ht]
            refine ⟨fun _ => ?_, fun hne => absurd rfl hne⟩
            rw [lookupEntry_upsert_self]
            rfl
          · have hne : ¬ (n + 1 = 1) := by omega
            rw [incr_existing hr he hlive hp hne t]
            refine ⟨fun h2 => absurd h2 hne, fun _ => ?_⟩
            rw [lookupEntry_upsert_self]
            rfl
      · have hl : lookupVal st.data now k = none := by
          rw [lookupVal, he]
          change (if isLive now e = true then some e.val else none) = none
          rw [if_neg hlive]
        rw [incr_fresh hr hl ht]
        refine ⟨fun _ => ?_, fun hne => absurd rfl hne⟩
        rw [lookupEntry_upsert_self]
        rfl
  · rw [incr_unreachable hr now k (some t)]
    exact ⟨fun h1 => absurd h1 (by simp), fun _ => rfl⟩

/-- C6 (amended): for every key k, (1) with a supplied nonzero ttl t,
`incr(k, t)` applies the expiry `now + 1000·t` to k exactly when the
post-increment counter value equals 1 — the converse direction is part
of clause (2); (2) whatever the ttl argument, every call whose
post-increment value differs from 1 leaves the recorded expiry of k
unchanged (the TTL is never refreshed); (3) when the ttl argument is
omitted or zero, no expiry is ever applied: the recorded expiry of k is
either left unchanged or the freshly created counter carries no expiry
at all. -/
theorem C6_incr_expiry_amended (st : Store) (now : Nat) (k : String) :
    (∀ t : Nat, 0 < t → (CacheService.incr st now k (some t)).1 = 1 →
      (lookupEntry (CacheService.incr st now k (some t)).2.data k).map Entry.exp =
        some (some (now + 1000 * t))) ∧
    (∀ ttlArg : Option Nat, ¬ ((CacheService.incr st now k ttlArg).1 = 1) →
      (lookupEntry (CacheService.incr st now k ttlArg).2.data k).map Entry.exp =
        (lookupEntry st.data k).map Entry.exp) ∧
    (∀ ttlArg : Option Nat, ttlArg = none ∨ ttlArg = some 0 →
      (lookupEntry (CacheService.incr st now k ttlArg).2.data k).map Entry.exp =
        (lookupEntry st.data k).map Entry.exp ∨
      (lookupEntry (CacheService.incr st now k ttlArg).2.data k).map Entry.exp = some none) := by
  have hfalsy : ∀ ttlArg : Option Nat, ttlArg = none ∨ ttlArg = some 0 →
      ((¬ ((CacheService.incr st now k ttlArg).1 = 1) →
        (lookupEntry (CacheService.incr st now k ttlArg).2.data k).map Entry.exp =
          (lookupEntry st.data k).map Entry.exp) ∧
       ((lookupEntry (CacheService.incr st now k ttlArg).2.data k).map Entry.exp =
          (lookupEntry st.data k).map Entry.exp ∨
        (lookupEntry (CacheService.incr st now k ttlArg).2.data k).map Entry.exp = some none)) := by
    intro ttlArg hf
    by_cases hr : st.reachable = true
    · rcases he : lookupEntry st.data k with _ | e
      · have hl : lookupVal st.data now k = none := by rw [lookupVal, he]
        rw [incr_falsy_of_redisIncr (redisIncr_fresh hr hl) hf]
        refine ⟨fun hne => absurd rfl hne, Or.inr ?_⟩
        show (lookupEntry (upsert k "1" none st.data) k).map Entry.exp = some none
        rw [lookupEntry_upsert_self]
        rfl
      · by_cases hlive : isLive now e = true
        · rcases hp : parseInt e.val.data with _ | n
          · rw [incr_of_redisIncr_none (redisIncr_parse_error hr he hlive hp) ttlArg]
            exact ⟨fun _ => by simp [he], Or.inl (by simp [he])⟩
          · rw [incr_falsy_of_redisIncr (redisIncr_existing hr he hlive hp) hf]
            have hexp : (lookupEntry
                ((n + 1, { st with data := upsert k (printInt (n + 1)) e.exp st.data })
                  : Int × Store).2.data k).map Entry.exp = (some e).map Entry.exp := by
              show (lookupEntry (upsert k (printInt (n + 1)) e.exp st.data) k).map Entry.exp =
                (some e).map Entry.exp
              rw [lookupEntry_upsert_self]
              rfl
            exact ⟨fun _ => hexp, Or.inl hexp⟩
        · have hl : lookupVal st.data now k = none := by
            rw [lookupVal, he]
            change (if isLive now e = true then some e.val else none) = none
            rw [if_neg hlive]
          rw [incr_falsy_of_redisIncr (redisIncr_fresh hr hl) hf]
          refine ⟨fun hne => absurd rfl hne, Or.inr ?_⟩
          show (lookupEntry (upsert k "1" none st.data) k).map Entry.exp = some none
          rw [lookupEntry_upsert_self]
          rfl
    · rw [incr_unreachable hr now k ttlArg]
      exact ⟨fun _ => rfl, Or.inl rfl⟩
  refine ⟨fun t ht => (incr_expiry_nonzero st now k t ht).1, ?_,
    fun ttlArg hf => (hfalsy ttlArg hf).2⟩
  intro ttlArg hne
  rcases ttlArg with _ | t
  · exact (hfalsy none (Or.inl rfl)).1 hne
  · by_cases ht : t = 0
    · subst ht
      exact (hfalsy (some 0) (Or.inr rfl)).1 hne
    · exact (incr_expiry_nonzero st now k t (Nat.pos_of_ne_zero ht)).2 hne

theorem C6_incr_expiry_amended_witness :
    (lookupEntry (CacheService.incr ⟨true, []⟩ 0 "k" (some 5)).2.data "k").map Entry.exp =
      some (some 5000) ∧
    ((lookupEntry (CacheService.incr ⟨true, []⟩ 0 "k" (some 0)).2.data "k").map Entry.exp =
        (lookupEntry ([] : List Entry) "k").map Entry.exp ∨
      (lookupEntry (CacheService.incr ⟨true, []⟩ 0 "k" (some 0)).2.data "k").map Entry.exp =
        some none) := by
  have h := C6_incr_expiry_amended ⟨true, []⟩ 0 "k"
  exact ⟨h.1 5 (by decide) (by decide), h.2.2 (some 0) (Or.inr rfl)⟩

/-- C6 counterexample: calling `incr` with the ttl argument 0 on a fresh
key gives post-increment counter value 1, yet no expiry is applied (the
recorded expiry stays `none`), refuting the original claim that incr applies
an expiry exactly when the post-increment value equals 1, as quantified over
every ttl argument. -/
theorem C6_incr_expiry_counterexample :
    (CacheService.incr ⟨true, []⟩ 0 "k" (some 0)).1 = 1 ∧
    (lookupEntry (CacheService.incr ⟨true, []⟩ 0 "k" (some 0)).2.data "k").map Entry.exp =
      some none := by
  decide

theorem rateLimitCacheKey_inj {sub : String} {a b : Nat}
    (h : rateLimitCacheKey sub a = rateLimitCacheKey sub b) : a = b := by
  have h2 := congrArg String.data h
  rw [rateLimitCacheKey, rateLimitCacheKey] at h2
  simp only [String.data_append] at h2
  have h3 := List.append_cancel_left h2
  exact printNat_injective (String.ext h3)

theorem ceilDiv_pos {w : Nat} (hw : 0 < w) : 0 < ceilDiv w 1000 := by
  rw [ceilDiv]
  omega

/-- C5: for a fixed positive window size, any timestamp in
`[windowStart, windowStart + windowMs)` maps to the same window-start
value and hence the same composite store key; the timestamp
`windowStart + windowMs` maps to the later window start
`windowStart + windowMs`, whose composite key differs, and a
`checkRateLimit` call at that boundary on a store holding no counter for
the new window observes a counter that starts again at 1. -/
theorem C5_window_boundary (w : Nat) (hw : 0 < w) (t1 : Nat) (sub : String) (st : Store)
    (limit : Int) :
    (∀ t2, rateLimitWindowStart t1 w ≤ t2 → t2 < rateLimitWindowStart t1 w + w →
      rateLimitWindowStart t2 w = rateLimitWindowStart t1 w ∧
      rateLimitCacheKey sub (rateLimitWindowStart t2 w) =
        rateLimitCacheKey sub (rateLimitWindowStart t1 w)) ∧
    rateLimitWindowStart (rateLimitWindowStart t1 w + w) w = rateLimitWindowStart t1 w + w ∧
    ¬ (rateLimitCacheKey sub (rateLimitWindowStart t1 w + w) =
        rateLimitCacheKey sub (rateLimitWindowStart t1 w)) ∧
    (st.reachable = true →
      lookupVal st.data (rateLimitWindowStart t1 w + w)
        (rateLimitCacheKey sub (rateLimitWindowStart t1 w + w)) = none →
      (RateLimitService.checkRateLimit st (rateLimitWindowStart t1 w + w) sub limit w).1.totalHits
        = 1) := by
  have hW2 : rateLimitWindowStart (rateLimitWindowStart t1 w + w) w =
      rateLimitWindowStart t1 w + w := by
    have hsucc : rateLimitWindowStart t1 w + w = (t1 / w + 1) * w := by
      rw [rateLimitWindowStart, Nat.succ_mul]
    rw [rateLimitWindowStart, hsucc, Nat.mul_div_cancel _ hw]
  refine ⟨?_, hW2, ?_, ?_⟩
  · intro t2 h1 h2
    have hdiv : t2 / w = t1 / w := by
      apply Nat.div_eq_of_lt_le
      · exact h1
      · rw [Nat.succ_mul]
        exact h2
    have : rateLimitWindowStart t2 w = rateLimitWindowStart t1 w := by
      rw [rateLimitWindowStart, rateLimitWindowStart, hdiv]
    exact ⟨this, by rw [this]⟩
  · intro heq
    have := rateLimitCacheKey_inj heq
    omega
  · intro hre hlk
    simp only [RateLimitService.checkRateLimit, hW2]
    rw [incr_fresh hre hlk (ceilDiv_pos hw)]

theorem C5_window_boundary_witness :
    rateLimitWindowStart 5 10 = rateLimitWindowStart 0 10 ∧
    rateLimitWindowStart (rateLimitWindowStart 0 10 + 10) 10 = rateLimitWindowStart 0 10 + 10 ∧
    ¬ (rateLimitCacheKey "s" (rateLimitWindowStart 0 10 + 10) =
        rateLimitCacheKey "s" (rateLimitWindowStart 0 10)) ∧
    (RateLimitService.checkRateLimit ⟨true, []⟩ (rateLimitWindowStart 0 10 + 10) "s" 1 10).1.totalHits
      = 1 := by
  have h := C5_window_boundary 10 (by decide) 0 "s" ⟨true, []⟩ 1
  exact ⟨(h.1 5 (by decide) (by decide)).1, h.2.1, h.2.2.1, h.2.2.2 rfl rfl⟩

/-- C7: on a healthy store, after `invalidateUserExpenses(u)` every key
matching `user:{u}:expenses*` reads back as absent via `get`, while the
store entry recorded under every non-matching key — in particular any
`user:{u}:categories:x` key set before the call — is unchanged. -/
theorem C7_invalidateUserExpenses_scope (st : Store) (now : Nat) (u : String)
    (h : st.reachable = true) :
    (∀ k, globMatch (CACHE_PATTERNS.USER_EXPENSES u).data k.data = true →
      CacheService.get (CacheInvalidator.invalidateUserExpenses st now u) now k = Json.null) ∧
    (∀ k, ¬ (globMatch (CACHE_PATTERNS.USER_EXPENSES u).data k.data = true) →
      lookupEntry (CacheInvalidator.invalidateUserExpenses st now u).data k =
        lookupEntry st.data k) ∧
    (∀ k, ¬ (globMatch (CACHE_PATTERNS.USER_EXPENSES u).data k.data = true) →
      CacheService.get (CacheInvalidator.invalidateUserExpenses st now u) now k =
        CacheService.get st now k) := by
  have hsnd := delPattern_snd h now (CACHE_PATTERNS.USER_EXPENSES u)
  have hframe : ∀ k, ¬ (globMatch (CACHE_PATTERNS.USER_EXPENSES u).data k.data = true) →
      lookupEntry (CacheInvalidator.invalidateUserExpenses st now u).data k =
        lookupEntry st.data k := by
    intro k hg
    rw [CacheInvalidator.invalidateUserExpenses, hsnd]
    show lookupEntry
      (removeKeys (visibleKeys now (CACHE_PATTERNS.USER_EXPENSES u) st.data) st.data) k =
        lookupEntry st.data k
    rw [lookupEntry_removeKeys]
    exact if_neg (fun hk => hg (visibleKeys_glob hk))
  refine ⟨?_, hframe, ?_⟩
  rotate_left
  · intro k hg
    have hlv : lookupVal (CacheInvalidator.invalidateUserExpenses st now u).data now k =
        lookupVal st.data now k := by
      rw [lookupVal, lookupVal, hframe k hg]
    have hre : (CacheInvalidator.invalidateUserExpenses st now u).reachable = true := by
      rw [CacheInvalidator.invalidateUserExpenses, hsnd]
      exact h
    rw [CacheService.get, CacheService.get, redisGet, redisGet, hre, h, if_pos rfl, if_pos rfl,
      hlv]
  rw [CacheInvalidator.invalidateUserExpenses, hsnd]
  · intro k hg
    apply get_eq_null_of_lookupVal_none
    show lookupVal
      (removeKeys (visibleKeys now (CACHE_PATTERNS.USER_EXPENSES u) st.data) st.data) now k = none
    rw [lookupVal_removeKeys]
    by_cases hk : k ∈ visibleKeys now (CACHE_PATTERNS.USER_EXPENSES u) st.data
    · rw [if_pos hk]
    · rw [if_neg hk]
      rcases hv : lookupVal st.data now k with _ | raw
      · rfl
      · exact absurd (mem_visibleKeys_of_lookupVal hv hg) hk

theorem C7_invalidateUserExpenses_scope_witness :
    CacheService.get
      (CacheInvalidator.invalidateUserExpenses
        ⟨true, [⟨"user:42:expenses:1:20", "7", none⟩, ⟨"user:42:categories:x", "8", none⟩]⟩
        0 "42") 0 "user:42:expenses:1:20" = Json.null ∧
    lookupEntry
      (CacheInvalidator.invalidateUserExpenses
        ⟨true, [⟨"user:42:expenses:1:20", "7", none⟩, ⟨"user:42:categories:x", "8", none⟩]⟩
        0 "42").data "user:42:categories:x" =
      lookupEntry [⟨"user:42:expenses:1:20", "7", none⟩, ⟨"user:42:categories:x", "8", none⟩]
        "user:42:categories:x" := by
  have h := C7_invalidateUserExpenses_scope
    ⟨true, [⟨"user:42:expenses:1:20", "7", none⟩, ⟨"user:42:categories:x", "8", none⟩]⟩
    0 "42" rfl
  exact ⟨h.1 "user:42:expenses:1:20" (by decide), h.2.1 "user:42:categories:x" (by decide)⟩

/-- C8 (amended): invalidateCategory without a userId makes every key
matching the category pattern read back as absent while leaving the entry
under every non-matching key unchanged — in particular every key matching
the user-categories pattern of any user; invalidateCategory with a
nonempty userId u additionally makes every key matching the
user-categories pattern of u read back as absent, leaving keys matching
neither pattern unchanged; and with an empty userId the call coincides
with the no-userId form, because the JS truthiness guard skips the extra
deletion. -/
theorem C8_invalidateCategory_scope (st : Store) (now : Nat) (c : Nat) (u : String)
    (h : st.reachable = true) (hu : ¬ (u = "")) :
    (∀ k, globMatch (CACHE_PATTERNS.CATEGORY_ALL c).data k.data = true →
      CacheService.get (CacheInvalidator.invalidateCategory st now c none) now k = Json.null) ∧
    (∀ k, ¬ (globMatch (CACHE_PATTERNS.CATEGORY_ALL c).data k.data = true) →
      lookupEntry (CacheInvalidator.invalidateCategory st now c none).data k =
        lookupEntry st.data k) ∧
    (∀ uid k, globMatch (CACHE_PATTERNS.USER_CATEGORIES uid).data k.data = true →
      lookupEntry (CacheInvalidator.invalidateCategory st now c none).data k =
        lookupEntry st.data k) ∧
    (∀ k, globMatch (CACHE_PATTERNS.CATEGORY_ALL c).data k.data = true ∨
        globMatch (CACHE_PATTERNS.USER_CATEGORIES u).data k.data = true →
      CacheService.get (CacheInvalidator.invalidateCategory st now c (some u)) now k = Json.null) ∧
    (∀ k, ¬ (globMatch (CACHE_PATTERNS.CATEGORY_ALL c).data k.data = true) →
      ¬ (globMatch (CACHE_PATTERNS.USER_CATEGORIES u).data k.data = true) →
      lookupEntry (CacheInvalidator.invalidateCategory st now c (some u)).data k =
        lookupEntry st.data k) ∧
    CacheInvalidator.invalidateCategory st now c (some "") =
      CacheInvalidator.invalidateCategory st now c none := by
  have hsnd1 := delPattern_snd h now (CACHE_PATTERNS.CATEGORY_ALL c)
  have hre1 : (CacheService.delPattern st now (CACHE_PATTERNS.CATEGORY_ALL c)).2.reachable
      = true := delPattern_reachable h now (CACHE_PATTERNS.CATEGORY_ALL c)
  have hsnd2 := delPattern_snd hre1 now (CACHE_PATTERNS.USER_CATEGORIES u)
  have hnone : CacheInvalidator.invalidateCategory st now c none =
      { st with data :=
        removeKeys (visibleKeys now (CACHE_PATTERNS.CATEGORY_ALL c) st.data) st.data } := by
    rw [CacheInvalidator.invalidateCategory]
    exact hsnd1
  have hsome : CacheInvalidator.invalidateCategory st now c (some u) =
      { st with data :=
        (removeKeys
          (visibleKeys now (CACHE_PATTERNS.USER_CATEGORIES u)
            (removeKeys (visibleKeys now (CACHE_PATTERNS.CATEGORY_ALL c) st.data) st.data))
          (removeKeys (visibleKeys now (CACHE_PATTERNS.CATEGORY_ALL c) st.data) st.data)) } := by
    rw [CacheInvalidator.invalidateCategory]
    simp only [if_neg hu]
    rw [hsnd2, hsnd1]
  have part1 : ∀ k, globMatch (CACHE_PATTERNS.CATEGORY_ALL c).data k.data = true →
      CacheService.get (CacheInvalidator.invalidateCategory st now c none) now k = Json.null := by
    intro k hg
    rw [hnone]
    apply get_eq_null_of_lookupVal_none
    show lookupVal
      (removeKeys (visibleKeys now (CACHE_PATTERNS.CATEGORY_ALL c) st.data) st.data) now k = none
    rw [lookupVal_removeKeys]
    by_cases hk : k ∈ visibleKeys now (CACHE_PATTERNS.CATEGORY_ALL c) st.data
    · rw [if_pos hk]
    · rw [if_neg hk]
      rcases hv : lookupVal st.data now k with _ | raw
      · rfl
      · exact absurd (mem_visibleKeys_of_lookupVal hv hg) hk
  have part2 : ∀ k, ¬ (globMatch (CACHE_PATTERNS.CATEGORY_ALL c).data k.data = true) →
      lookupEntry (CacheInvalidator.invalidateCategory st now c none).data k =
        lookupEntry st.data k := by
    intro k hg
    rw [hnone]
    show lookupEntry
      (removeKeys (visibleKeys now (CACHE_PATTERNS.CATEGORY_ALL c) st.data) st.data) k =
        lookupEntry st.data k
    rw [lookupEntry_removeKeys]
    exact if_neg (fun hk => hg (visibleKeys_glob hk))
  refine ⟨part1, part2, ?_, ?_, ?_, rfl⟩
  · intro uid k hg
    apply part2
    intro hcat
    have := glob_userCategories_not_category (c := c) hg
    rw [this] at hcat
    exact Bool.noConfusion hcat
  · intro k hg
    rw [hsome]
    apply get_eq_null_of_lookupVal_none
    show lookupVal
      (removeKeys
        (visibleKeys now (CACHE_PATTERNS.USER_CATEGORIES u)
          (removeKeys (visibleKeys now (CACHE_PATTERNS.CATEGORY_ALL c) st.data) st.data))
        (removeKeys (visibleKeys now (CACHE_PATTERNS.CATEGORY_ALL c) st.data) st.data)) now k
      = none
    rw [lookupVal_removeKeys]
    by_cases hk2 : k ∈ visibleKeys now (CACHE_PATTERNS.USER_CATEGORIES u)
        (removeKeys (visibleKeys now (CACHE_PATTERNS.CATEGORY_ALL c) st.data) st.data)
    · rw [if_pos hk2]
    · rw [if_neg hk2]
      rcases hv : lookupVal
          (removeKeys (visibleKeys now (CACHE_PATTERNS.CATEGORY_ALL c) st.data) st.data) now k
          with _ | raw
      · rfl
      · rcases hg with hgc | hgu
        · rw [lookupVal_removeKeys] at hv
          by_cases hk1 : k ∈ visibleKeys now (CACHE_PATTERNS.CATEGORY_ALL c) st.data
          · rw [if_pos hk1] at hv
            exact Option.noConfusion hv
          · rw [if_neg hk1] at hv
            exact absurd (mem_visibleKeys_of_lookupVal hv hgc) hk1
        · exact absurd (mem_visibleKeys_of_lookupVal hv hgu) hk2
  · intro k hgc hgu
    rw [hsome]
    show lookupEntry
      (removeKeys
        (visibleKeys now (CACHE_PATTERNS.USER_CATEGORIES u)
          (removeKeys (visibleKeys now (CACHE_PATTERNS.CATEGORY_ALL c) st.data) st.data))
        (removeKeys (visibleKeys now (CACHE_PATTERNS.CATEGORY_ALL c) st.data) st.data)) k =
        lookupEntry st.data k
    rw [lookupEntry_removeKeys, if_neg (fun hk => hgu (visibleKeys_glob hk))]
    rw [lookupEntry_removeKeys, if_neg (fun hk => hgc (visibleKeys_glob hk))]

theorem C8_invalidateCategory_scope_witness :
    CacheService.get
      (CacheInvalidator.invalidateCategory
        ⟨true, [⟨"category:7:expense_count", "3", none⟩, ⟨"user:42:categories", "9", none⟩]⟩
        0 7 none) 0 "category:7:expense_count" = Json.null ∧
    lookupEntry
      (CacheInvalidator.invalidateCategory
        ⟨true, [⟨"category:7:expense_count", "3", none⟩, ⟨"user:42:categories", "9", none⟩]⟩
        0 7 none).data "user:42:categories" =
      lookupEntry [⟨"category:7:expense_count", "3", none⟩, ⟨"user:42:categories", "9", none⟩]
        "user:42:categories" ∧
    CacheService.get
      (CacheInvalidator.invalidateCategory
        ⟨true, [⟨"category:7:expense_count", "3", none⟩, ⟨"user:42:categories", "9", none⟩]⟩
        0 7 (some "42")) 0 "user:42:categories" = Json.null := by
  have h := C8_invalidateCategory_scope
    ⟨true, [⟨"category:7:expense_count", "3", none⟩, ⟨"user:42:categories", "9", none⟩]⟩
    0 7 "42" rfl (by decide)
  exact ⟨h.1 "category:7:expense_count" (by decide),
    h.2.2.1 "42" "user:42:categories" (by decide),
    h.2.2.2.1 "user:42:categories" (Or.inr (by decide))⟩

/-- C8 counterexample: with the supplied userId equal to the empty
string, a live key matching the corresponding user-categories pattern
(here the pattern is the string starting user, colon, colon, categories,
star) survives invalidateCategory with its value intact, because the JS
truthiness guard skips the second pattern deletion — refuting the
original claim that a call with a userId u always additionally deletes
every key matching the user-categories pattern of u. -/
theorem C8_invalidateCategory_counterexample :
    globMatch (CACHE_PATTERNS.USER_CATEGORIES "").data "user::categories:x".data = true ∧
    CacheService.get
      (CacheInvalidator.invalidateCategory ⟨true, [⟨"user::categories:x", "9", none⟩]⟩
        0 7 (some "")) 0 "user::categories:x" = Json.num 9 := by
  decide

theorem c4_first (st : Store) (h : st.reachable = true)
    (h0 : lookupVal st.data 1000 "rate_limit:ip1:0" = none) :
    RateLimitService.checkRateLimit st 1000 "ip1" 5 60000 =
    ({ allowed := true, remaining := 4, resetTime := 60000, totalHits := 1 },
     { st with data := upsert "rate_limit:ip1:0" "1" (some 61000) st.data }) := by
  have hincr := incr_fresh h h0 (show (0 : Nat) < 60 by decide)
  simp only [RateLimitService.checkRateLimit]
  rw [show rateLimitCacheKey "ip1" (rateLimitWindowStart 1000 60000) = "rate_limit:ip1:0"
    from by decide]
  rw [show ceilDiv 60000 1000 = 60 from by decide]
  rw [hincr]
  rfl

theorem c4_step (st : Store) (h : st.reachable = true) (now : Nat) (vin w : Int)
    (vraw wraw : String) (a : Bool) (rem : Int)
    (hvraw : vraw = printInt vin) (hw : w = vin + 1) (hwraw : wraw = printInt w)
    (ha : a = decide (w ≤ 5)) (hrem : rem = max 0 (5 - w))
    (hnow : now / 60000 = 0) (hlt : now < 61000) (h1 : ¬ (w = 1)) :
    RateLimitService.checkRateLimit
      { st with data := upsert "rate_limit:ip1:0" vraw (some 61000) st.data } now "ip1" 5 60000 =
    (⟨a, rem, 60000, w⟩,
     { st with data := upsert "rate_limit:ip1:0" wraw (some 61000) st.data }) := by
  subst hw
  subst hvraw hwraw ha hrem
  have hre1 : ({ st with data := upsert "rate_limit:ip1:0" (printInt vin) (some 61000) st.data }
      : Store).reachable = true := h
  have he : lookupEntry (upsert "rate_limit:ip1:0" (printInt vin) (some 61000) st.data)
      "rate_limit:ip1:0" = some ⟨"rate_limit:ip1:0", printInt vin, some 61000⟩ :=
    lookupEntry_upsert_self _ _ _ _
  have hlive : isLive now (⟨"rate_limit:ip1:0", printInt vin, some 61000⟩ : Entry) = true :=
    isLive_now_lt _ _ hlt
  have hp : parseInt (printInt vin).data = some vin := parseInt_printInt vin
  have hincr := incr_existing hre1 he hlive hp h1 60
  simp only [RateLimitService.checkRateLimit]
  rw [show rateLimitWindowStart now 60000 = 0 from by rw [rateLimitWindowStart, hnow]]
  rw [show rateLimitCacheKey "ip1" 0 = "rate_limit:ip1:0" from by decide]
  rw [show ceilDiv 60000 1000 = 60 from by decide]
  rw [hincr]
  rw [upsert_upsert]

/-- The spec scenario: six sequential `checkRateLimit("ip1", 5, 60000)`
calls at 1-second spacing inside one fixed window, starting from the
supplied store; the list collects the six returned results in order. -/
def c4Chain (st : Store) : List RateLimitResult :=
  let c1 := RateLimitService.checkRateLimit st 1000 "ip1" 5 60000
  let c2 := RateLimitService.checkRateLimit c1.2 2000 "ip1" 5 60000
  let c3 := RateLimitService.checkRateLimit c2.2 3000 "ip1" 5 60000
  let c4 := RateLimitService.checkRateLimit c3.2 4000 "ip1" 5 60000
  let c5 := RateLimitService.checkRateLimit c4.2 5000 "ip1" 5 60000
  let c6 := RateLimitService.checkRateLimit c5.2 6000 "ip1" 5 60000
  [c1.1, c2.1, c3.1, c4.1, c5.1, c6.1]

/-- C4: starting from any reachable store holding no counter for the
current window, six sequential `checkRateLimit("ip1", 5, 60000)` calls in
the same window return, in order, `allowed = true` with `remaining`
4, 3, 2, 1, 0, then `allowed = false` with `remaining = 0`. -/
theorem C4_rate_limit_scenario (st : Store) (h : st.reachable = true)
    (h0 : lookupVal st.data 1000 "rate_limit:ip1:0" = none) :
    (c4Chain st).map (fun r => (r.allowed, r.remaining)) =
      [(true, 4), (true, 3), (true, 2), (true, 1), (true, 0), (false, 0)] := by
  have e1 := c4_first st h h0
  have e2 := c4_step st h 2000 1 2 "1" "2" true 3 (by decide) (by decide) (by decide)
    (by decide) (by decide) (by decide) (by decide) (by decide)
  have e3 := c4_step st h 3000 2 3 "2" "3" true 2 (by decide) (by decide) (by decide)
    (by decide) (by decide) (by decide) (by decide) (by decide)
  have e4 := c4_step st h 4000 3 4 "3" "4" true 1 (by decide) (by decide) (by decide)
    (by decide) (by decide) (by decide) (by decide) (by decide)
  have e5 := c4_step st h 5000 4 5 "4" "5" true 0 (by decide) (by decide) (by decide)
    (by decide) (by decide) (by decide) (by decide) (by decide)
  have e6 := c4_step st h 6000 5 6 "5" "6" false 0 (by decide) (by decide) (by decide)
    (by decide) (by decide) (by decide) (by decide) (by decide)
  simp only [c4Chain]
  rw [e1]
  dsimp only
  rw [e2]
  dsimp only
  rw [e3]
  dsimp only
  rw [e4]
  dsimp only
  rw [e5]
  dsimp only
  rw [e6]
  dsimp only
  decide

theorem C4_rate_limit_scenario_witness :
    (c4Chain ⟨true, []⟩).map (fun r => (r.allowed, r.remaining)) =
      [(true, 4), (true, 3), (true, 2), (true, 1), (true, 0), (false, 0)] :=
  C4_rate_limit_scenario ⟨true, []⟩ rfl rfl
